import Mathlib

/-!
Verification of the Modbus RTU codec and register-history data model of
rackmon (common/recipes-core/rackmon2/rackmon/regmap.hpp and
modbus_cmds.cpp), as a shallow embedding.

Machine integers are modelled as Nat with explicit reductions modulo 256
(uint8) or 65536 (uint16) where the code performs such conversions.
Fallible operations return Except ModbusError.
-/

set_option maxRecDepth 100000

namespace Rackmon

/-- Error kinds of the codec: length mismatch, CRC mismatch, buffer
underflow, and the field-mismatch error bad_resp_error carrying the field
name, the expected value and the actual value. -/
inductive ModbusError where
  | underflow
  | frameLength
  | crcMismatch
  | badResp (what : String) (expected : Nat) (actual : Nat)
deriving DecidableEq, Repr

/-- Decidable equality of fallible results, used to evaluate the codec on
concrete frames. -/
instance {ε α : Type} [DecidableEq ε] [DecidableEq α] :
    DecidableEq (Except ε α)
  | .error e, .error f =>
      if h : e = f then .isTrue (by rw [h])
      else .isFalse (fun hh => by cases hh; exact h rfl)
  | .error _, .ok _ => .isFalse (fun hh => by cases hh)
  | .ok _, .error _ => .isFalse (fun hh => by cases hh)
  | .ok a, .ok b =>
      if h : a = b then .isTrue (by rw [h])
      else .isFalse (fun hh => by cases hh; exact h rfl)

/-- Modelled from the spec: the Msg frame buffer of msg.hpp (not under
src/). It is a byte array together with a logical length; push writes a
byte at index len and increments len, pop reads the byte at len - 1 and
decrements len (tail-first decoding). -/
structure Msg where
  raw : Nat → Nat
  len : Nat

/-- The bytes currently in the buffer, indices 0 .. len - 1. -/
def Msg.bytes (m : Msg) : List Nat := (List.range m.len).map m.raw

/-- A Msg holding a received frame. -/
def Msg.ofBytes (frame : List Nat) : Msg :=
  ⟨fun i => frame.getD i 0, frame.length⟩

/-- Modelled from the spec: push of a single byte (uint8 conversion of the
value) at the current length. -/
def pushByte (b : Nat) (m : Msg) : Msg :=
  ⟨Function.update m.raw m.len (b % 256), m.len + 1⟩

/-- Modelled from the spec: push of a 16-bit value in big-endian order
(high byte first). -/
def pushU16 (v : Nat) (m : Msg) : Msg :=
  pushByte (v % 256) (pushByte (v / 256) m)

/-- Modelled from the spec: pop of a single byte from the tail of the
remaining buffer. -/
def popByte (m : Msg) : Except ModbusError (Nat × Msg) :=
  if m.len = 0 then .error .underflow
  else .ok (m.raw (m.len - 1), ⟨m.raw, m.len - 1⟩)

/-- Modelled from the spec: pop of a 16-bit value; the low byte sits at
the tail, the high byte before it (mirror of the big-endian push). -/
def popU16 (m : Msg) : Except ModbusError (Nat × Msg) := do
  let (lo, m1) ← popByte m
  let (hi, m2) ← popByte m1
  pure (hi * 256 + lo, m2)

/-- Modelled from the spec: pop of a vector of n 16-bit registers; the
vector is filled back-to-front, so the result list is in wire order. -/
def popRegs : Nat → Msg → Except ModbusError (List Nat × Msg)
  | 0, m => .ok ([], m)
  | n + 1, m => do
      let (w, m1) ← popU16 m
      let (ws, m2) ← popRegs n m1
      pure (ws ++ [w], m2)

/-- One shift step of the Modbus CRC16 (reflected polynomial 0xA001). -/
def crcShift (c : Nat) : Nat :=
  if c % 2 = 1 then (c / 2) ^^^ 0xA001 else c / 2

/-- Fold one byte into the CRC: xor it in, then shift eight times. -/
def crcByte (c b : Nat) : Nat :=
  crcShift (crcShift (crcShift (crcShift
    (crcShift (crcShift (crcShift (crcShift (c ^^^ b))))))))

/-- Modbus CRC16 of a byte list, initial value 0xFFFF. -/
def crc16 (l : List Nat) : Nat := l.foldl crcByte 0xFFFF

/-- Modelled from the spec: finalize() computes the CRC16 over the bytes
currently in the buffer and appends it in little-endian order (low byte
first). -/
def finalize (m : Msg) : Msg :=
  pushByte (crc16 m.bytes / 256) (pushByte (crc16 m.bytes % 256) m)

/-- Modelled from the spec: validate() checks the received length against
the expected length for the response type, then checks the trailing two
bytes against the CRC16 of the preceding bytes, and chops the CRC off the
logical length. -/
def validate (m : Msg) (explen : Nat) : Except ModbusError Msg :=
  if m.len ≠ explen then .error .frameLength
  else if m.bytes.getD (m.len - 2) 0 = crc16 (m.bytes.take (m.len - 2)) % 256
          ∧ m.bytes.getD (m.len - 1) 0 = crc16 (m.bytes.take (m.len - 2)) / 256
    then .ok ⟨m.raw, m.len - 2⟩
    else .error .crcMismatch

/-- check_value of modbus_cmds.cpp: raises bad_resp_error(what, expected,
value) whenever the popped value differs from the expected one. -/
def check_value (what : String) (value expected : Nat) :
    Except ModbusError Unit :=
  if value ≠ expected then .error (.badResp what expected value) else .ok ()

/-- ReadHoldingRegistersResp constructor: raises an underflow error on an
empty register vector, otherwise records the expected frame length
addr(1) + func(1) + bytecount(1) + 2 * count + crc(2). -/
def readHoldingRegistersRespInit (regs : List Nat) :
    Except ModbusError Nat :=
  if regs.length = 0 then .error .underflow
  else .ok (5 + 2 * regs.length)

/-- ReadHoldingRegistersResp::decode over a received frame, for a response
expecting n registers: validate, then pop regs, byte_count, function,
dev_addr from the tail, then check the function code (expected 0x03,
constant modelled from the spec) and the byte count. The popped dev_addr
is returned but never checked. -/
def readHoldingRegistersRespDecode (n : Nat) (frame : List Nat) :
    Except ModbusError (List Nat × Nat × Nat × Nat) := do
  let m ← validate (Msg.ofBytes frame) (5 + 2 * n)
  let (regs, m1) ← popRegs n m
  let (byte_count, m2) ← popByte m1
  let (function, m3) ← popByte m2
  let (dev_addr, _m4) ← popByte m3
  check_value "function" function 0x03
  check_value "byte_count" byte_count (regs.length * 2)
  pure (regs, byte_count, function, dev_addr)

/-- WriteSingleRegisterResp::decode, for a response built with device
address a, expected register offset, and optional expected value (present
only for the three-argument constructor): validate the fixed length 8,
pop value, reg_off, function, dev_addr from the tail, then check reg_off
and, when supplied, value. Neither the function code nor the device
address is checked; the popped dev_addr overwrites the stored one. -/
def writeSingleRegisterRespDecode (a expected_reg_off : Nat)
    (expected_value : Option Nat) (frame : List Nat) :
    Except ModbusError (Nat × Nat × Nat × Nat) := do
  let _ := a
  let m ← validate (Msg.ofBytes frame) 8
  let (value, m1) ← popU16 m
  let (reg_off, m2) ← popU16 m1
  let (function, m3) ← popByte m2
  let (dev_addr, _m4) ← popByte m3
  check_value "reg_off" reg_off expected_reg_off
  match expected_value with
  | some ev => check_value "value" value ev
  | none => pure ()
  pure (value, reg_off, function, dev_addr)

/-- WriteMultipleRegistersResp::decode, for a response built with expected
device address, starting address and register count: validate the fixed
length 8, pop reg_count, starting_addr, function, dev_addr from the tail,
then check dev_addr, function (expected 0x10, constant modelled from the
spec), starting_addr and reg_count, in that order. -/
def writeMultipleRegistersRespDecode
    (expected_dev_addr expected_starting_addr expected_reg_count : Nat)
    (frame : List Nat) : Except ModbusError (Nat × Nat × Nat × Nat) := do
  let m ← validate (Msg.ofBytes frame) 8
  let (reg_count, m1) ← popU16 m
  let (starting_addr, m2) ← popU16 m1
  let (function, m3) ← popByte m2
  let (dev_addr, _m4) ← popByte m3
  check_value "dev_addr" dev_addr expected_dev_addr
  check_value "function" function 0x10
  check_value "starting_addr" starting_addr expected_starting_addr
  check_value "reg_count" reg_count expected_reg_count
  pure (reg_count, starting_addr, function, dev_addr)

/-- WriteMultipleRegistersReq::encode over the request state after the
caller appended data bytes past the 7-byte header reservation: underflow
if no data was appended (len <= 7); otherwise compute the uint8 data
length len - 7, pad with one zero byte (incrementing the data length) if
it is odd, set reg_count = data_len / 2, rewind len to 0 and push the
header dev_addr, function 0x10, starting_addr, reg_count, data_len over
the reserved bytes, restore len over the data, and finalize. -/
def writeMultipleRegistersReqEncode (dev_addr starting_addr : Nat)
    (m : Msg) : Except ModbusError Msg :=
  if m.len ≤ 7 then .error .underflow
  else
    let data_len := (m.len - 7) % 256
    let step : Msg × Nat :=
      if data_len % 2 ≠ 0 then (pushByte 0 m, (data_len + 1) % 256)
      else (m, data_len)
    let m1 := step.1
    let data_len := step.2
    let reg_count := data_len / 2
    let m2 : Msg := ⟨m1.raw, 0⟩
    let m3 := pushByte data_len (pushU16 reg_count
      (pushU16 starting_addr (pushByte 0x10 (pushByte dev_addr m2))))
    let m4 : Msg := ⟨m3.raw, m3.len + data_len⟩
    .ok (finalize m4)

/-- ReadFileRecordResp constructor length computation: len starts at
addr(1) + func(1) + bytes(1) + crc(2) = 5 and each record adds
len(1) + type(1) + 2 * record_len data bytes. -/
def readFileRecordRespInitLen (sizes : List Nat) : Nat :=
  sizes.foldl (fun l s => l + (2 + 2 * s)) 5

/-- The record loop of ReadFileRecordResp::decode: records are processed
in reverse record order (rbegin to rend); for each, pop the data words,
the reference type and the field length from the tail, then check the
reference type against 0x6 and the field length against
1 + 2 * record_len. -/
def popRecords : List Nat → Msg → Except ModbusError (List (List Nat) × Msg)
  | [], m => .ok ([], m)
  | s :: rest, m => do
      let (ds, m1) ← popRecords rest m
      let (d, m2) ← popRegs s m1
      let (ref, m3) ← popByte m2
      let (flen, m4) ← popByte m3
      check_value "reference" ref 0x6
      check_value "field_size" flen (1 + d.length * 2)
      pure (d :: ds, m4)

/-- ReadFileRecordResp::decode for a response with device address
dev_addr and records of the given sizes: validate against the
constructor-computed length, record the expected data length as the uint8
len - 3 (after the CRC was chopped), run the record loop, then pop
data_len, function and the echoed address, checking data_len, function
(expected 0x14, constant modelled from the spec), the address, and
finally that the buffer is fully consumed (len = 0). -/
def readFileRecordRespDecode (dev_addr : Nat) (sizes : List Nat)
    (frame : List Nat) : Except ModbusError (List (List Nat)) := do
  let m ← validate (Msg.ofBytes frame) (readFileRecordRespInitLen sizes)
  let bytes_exp := (m.len - 3) % 256
  let (datas, m1) ← popRecords sizes m
  let (data_len, m2) ← popByte m1
  let (function, m3) ← popByte m2
  let (got_addr, m4) ← popByte m3
  check_value "data_len" data_len bytes_exp
  check_value "function" function 0x14
  check_value "addr" got_addr dev_addr
  check_value "length" m4.len 0
  pure datas

/-- Big-endian byte image of a list of 16-bit words. -/
def beWords : List Nat → List Nat
  | [] => []
  | w :: ws => w / 256 % 256 :: w % 256 :: beWords ws

/-- Wire image of one file record in a Read File Record response:
field length, reference type 0x6, then the data words. -/
def recordChunk (d : List Nat) : List Nat :=
  (1 + d.length * 2) :: 6 :: beWords d

/-- Wire image of a record list, in record order. -/
def recordChunks : List (List Nat) → List Nat
  | [] => []
  | d :: ds => recordChunk d ++ recordChunks ds

/-- A well-formed Read File Record response frame for device address a
carrying the given record data: header, record chunks, CRC. -/
def readFileRecordFrame (a : Nat) (datas : List (List Nat)) : List Nat :=
  let body := a :: 0x14 :: (recordChunks datas).length :: recordChunks datas
  body ++ [crc16 body % 256, crc16 body / 256]

/-- RegisterDescriptor of regmap.hpp (configuration of one register);
the fields relevant to the register store and equality semantics. -/
structure RegisterDescriptor where
  regBegin : Nat
  length : Nat
  name : String
  keep : Nat
  changes_only : Bool
deriving DecidableEq, Repr

/-- Register of regmap.hpp: one raw reading, with its descriptor, a
capture timestamp (0 means never read / invalid) and the raw words. -/
structure Register where
  desc : RegisterDescriptor
  timestamp : Nat
  value : List Nat
deriving DecidableEq, Repr

/-- Register constructor: timestamp 0, value sized to the descriptor
length. -/
def Register.ofDesc (d : RegisterDescriptor) : Register :=
  ⟨d, 0, List.replicate d.length 0⟩

/-- Register::operator==: both timestamps non-zero and equal raw words. -/
def Register.beq (a b : Register) : Bool :=
  a.timestamp != 0 && (b.timestamp != 0 && a.value == b.value)

/-- Register::operator!=: either timestamp zero, or different raw words. -/
def Register.bne (a b : Register) : Bool :=
  a.timestamp == 0 || (b.timestamp == 0 || a.value != b.value)

/-- A placeholder register used as the default of list indexing; every
theorem below constrains the index to be in range, so it is never read. -/
def dummyRegister : Register := ⟨⟨0, 0, "", 0, false⟩, 0, []⟩

/-- RegisterStore of regmap.hpp: the fixed-depth circular history of one
register, with the write cursor idx. -/
structure RegisterStore where
  desc : RegisterDescriptor
  reg_addr : Nat
  history : List Register
  idx : Nat
deriving DecidableEq, Repr

/-- RegisterStore constructor: keep slots, all initialized from the
descriptor, cursor at 0. -/
def RegisterStore.ofDesc (d : RegisterDescriptor) : RegisterStore :=
  ⟨d, d.regBegin, List.replicate d.keep (Register.ofDesc d), 0⟩

/-- RegisterStore::front: the slot at idx (next to be written). -/
def RegisterStore.front (s : RegisterStore) : Register :=
  s.history.getD s.idx dummyRegister

/-- RegisterStore::back: the slot at idx - 1, or the last slot when
idx = 0 (most recently written). -/
def RegisterStore.back (s : RegisterStore) : Register :=
  if s.idx = 0 then s.history.getD (s.history.length - 1) dummyRegister
  else s.history.getD (s.idx - 1) dummyRegister

/-- RegisterStore::operator++: advance the cursor modulo the capacity. -/
def RegisterStore.advance (s : RegisterStore) : RegisterStore :=
  { s with idx := (s.idx + 1) % s.history.length }

/-- Writing through the front() reference: replace the slot at idx. -/
def RegisterStore.setFront (s : RegisterStore) (r : Register) :
    RegisterStore :=
  { s with history := s.history.set s.idx r }

/-- The write discipline of the polling loop: write into front(), then
advance. -/
def RegisterStore.writeAdvance (s : RegisterStore) (r : Register) :
    RegisterStore :=
  (s.setFront r).advance

/-- One observable mutation of a register store: a bare cursor advance or
a write-then-advance. -/
inductive StoreStep where
  | adv
  | write (r : Register)
deriving DecidableEq, Repr

/-- Apply one mutation step to a store. -/
def RegisterStore.applyStep (s : RegisterStore) : StoreStep → RegisterStore
  | .adv => s.advance
  | .write r => s.writeAdvance r

/-- A frame obtained by appending the CRC16 of a body in little-endian
order, as finalize() emits it. -/
def mkFrame (body : List Nat) : List Nat :=
  body ++ [crc16 body % 256, crc16 body / 256]

/-! ## Helper lemmas about the Msg buffer -/

theorem Msg.bytes_length (m : Msg) : m.bytes.length = m.len := by
  simp [Msg.bytes]

theorem Msg.bytes_mk_take (m : Msg) (k : Nat) (h : k ≤ m.len) :
    Msg.bytes ⟨m.raw, k⟩ = m.bytes.take k := by
  simp [Msg.bytes, ← List.map_take, List.take_range, Nat.min_eq_left h]

theorem range_map_getD (l : List Nat) (k : Nat) (h : k ≤ l.length) :
    (List.range k).map (fun i => l.getD i 0) = l.take k := by
  apply List.ext_getElem
  · simp [Nat.min_eq_left h]
  · intro i h1 h2
    simp only [List.getElem_map, List.getElem_range, List.getElem_take]
    exact List.getD_eq_getElem l 0 (by simp at h1; omega)

theorem Msg.ofBytes_bytes (frame : List Nat) :
    (Msg.ofBytes frame).bytes = frame := by
  show (List.range frame.length).map (fun i => frame.getD i 0) = frame
  rw [range_map_getD frame frame.length le_rfl, List.take_length]

theorem pushByte_bytes (b : Nat) (m : Msg) :
    (pushByte b m).bytes = m.bytes ++ [b % 256] := by
  simp only [pushByte, Msg.bytes, List.range_succ, List.map_append,
    List.map_cons, List.map_nil, Function.update_same]
  congr 1
  apply List.map_congr_left
  intro i hi
  exact Function.update_noteq (by simp at hi; omega) _ _

theorem pushByte_raw_ne (b : Nat) (m : Msg) (i : Nat) (h : i ≠ m.len) :
    (pushByte b m).raw i = m.raw i :=
  Function.update_noteq h _ _

theorem finalize_bytes (m : Msg) :
    (finalize m).bytes =
      m.bytes ++ [crc16 m.bytes % 256, crc16 m.bytes / 256 % 256] := by
  simp [finalize, pushByte_bytes]

theorem popByte_ok (m : Msg) (h : m.len ≠ 0) :
    popByte m = .ok (m.raw (m.len - 1), ⟨m.raw, m.len - 1⟩) := by
  simp [popByte, h]

theorem popByte_spec (m : Msg) (q : List Nat) (b : Nat)
    (h : m.bytes = q ++ [b]) :
    popByte m = .ok (b, ⟨m.raw, m.len - 1⟩) ∧
      Msg.bytes ⟨m.raw, m.len - 1⟩ = q := by
  have hlen : m.len = q.length + 1 := by
    have := m.bytes_length
    rw [h] at this
    simpa using this.symm
  have hb : m.raw (m.len - 1) = b := by
    have h1 : m.bytes.getD (m.len - 1) 0 = m.raw (m.len - 1) := by
      rw [List.getD_eq_getElem _ _ (by rw [m.bytes_length]; omega)]
      simp [Msg.bytes]
    rw [h] at h1
    rw [← h1, hlen]
    have h2 := List.getD_append_right q [b] 0 q.length le_rfl
    simp [h2]
  constructor
  · rw [popByte_ok m (by omega), hb]
  · rw [Msg.bytes_mk_take m (m.len - 1) (by omega), h, hlen]
    simp

theorem popU16_spec (m : Msg) (q : List Nat) (x y : Nat)
    (h : m.bytes = q ++ [x, y]) :
    popU16 m = .ok (x * 256 + y, ⟨m.raw, m.len - 2⟩) ∧
      Msg.bytes ⟨m.raw, m.len - 2⟩ = q := by
  have h1 : m.bytes = (q ++ [x]) ++ [y] := by simp [h]
  obtain ⟨hpop1, hbytes1⟩ := popByte_spec m (q ++ [x]) y h1
  have hlen : m.len = q.length + 2 := by
    have := m.bytes_length
    rw [h] at this
    simpa using this.symm
  obtain ⟨hpop2, hbytes2⟩ :=
    popByte_spec ⟨m.raw, m.len - 1⟩ q x (by simpa using hbytes1)
  constructor
  · simp only [popU16, bind, Except.bind, hpop1, hpop2, pure, Except.pure]
    have : m.len - 1 - 1 = m.len - 2 := by omega
    rw [this]
  · have : m.len - 1 - 1 = m.len - 2 := by omega
    rw [← this]
    exact hbytes2

theorem popU16_ok (m : Msg) (h : 2 ≤ m.len) :
    popU16 m =
      .ok (m.raw (m.len - 2) * 256 + m.raw (m.len - 1), ⟨m.raw, m.len - 2⟩)
    := by
  simp only [popU16, bind, Except.bind, popByte_ok m (by omega)]
  rw [popByte_ok ⟨m.raw, m.len - 1⟩ (by simp; omega)]
  simp only [pure, Except.pure]
  have : m.len - 1 - 1 = m.len - 2 := by omega
  rw [this]

theorem popRegs_any (n : Nat) (m : Msg) (h : 2 * n ≤ m.len) :
    ∃ ws : List Nat, ws.length = n ∧
      popRegs n m = .ok (ws, ⟨m.raw, m.len - 2 * n⟩) := by
  induction n generalizing m with
  | zero =>
      refine ⟨[], rfl, ?_⟩
      simp [popRegs]
  | succ k ih =>
      obtain ⟨ws, hl, hpop⟩ := ih ⟨m.raw, m.len - 2⟩ (by simp; omega)
      refine ⟨ws ++ [m.raw (m.len - 2) * 256 + m.raw (m.len - 1)], by simp [hl], ?_⟩
      simp only [popRegs, bind, Except.bind, popU16_ok m (by omega), hpop,
        pure, Except.pure]
      have : m.len - 2 - 2 * k = m.len - 2 * (k + 1) := by omega
      rw [this]

theorem beWords_append (xs ys : List Nat) :
    beWords (xs ++ ys) = beWords xs ++ beWords ys := by
  induction xs with
  | nil => rfl
  | cons w ws ih => simp [beWords, ih]

theorem beWords_length (ws : List Nat) :
    (beWords ws).length = 2 * ws.length := by
  induction ws with
  | nil => rfl
  | cons w t ih => simp [beWords, ih]; omega

theorem popRegs_spec (ws : List Nat) (m : Msg) (q : List Nat)
    (hw : ∀ w ∈ ws, w < 65536) (h : m.bytes = q ++ beWords ws) :
    popRegs ws.length m = .ok (ws, ⟨m.raw, m.len - 2 * ws.length⟩) ∧
      Msg.bytes ⟨m.raw, m.len - 2 * ws.length⟩ = q := by
  induction ws using List.reverseRecOn generalizing m with
  | nil =>
      constructor
      · simp [popRegs]
      · simpa [beWords] using h
  | append_singleton t w ih =>
      have hw' : w < 65536 := hw w (by simp)
      have h1 : m.bytes = (q ++ beWords t) ++ [w / 256 % 256, w % 256] := by
        rw [h, beWords_append]
        simp [beWords]
      obtain ⟨hpop1, hbytes1⟩ :=
        popU16_spec m (q ++ beWords t) (w / 256 % 256) (w % 256) h1
      have hval : w / 256 % 256 * 256 + w % 256 = w := by
        have : w / 256 < 256 := by omega
        rw [Nat.mod_eq_of_lt this]
        omega
      obtain ⟨hpop2, hbytes2⟩ := ih ⟨m.raw, m.len - 2⟩
        (fun x hx => hw x (by simp [hx])) hbytes1
      have hlen : m.len - 2 - 2 * t.length = m.len - 2 * (t ++ [w]).length := by
        simp; omega
      constructor
      · have hlw : (t ++ [w]).length = t.length + 1 := by simp
        rw [hlw]
        simp only [popRegs, bind, Except.bind, hpop1, hval, hpop2, pure,
          Except.pure]
        rw [show m.len - 2 - 2 * t.length = m.len - 2 * (t.length + 1) by omega]
      · rw [← hlen]
        exact hbytes2

theorem validate_ok_inv (m : Msg) (e : Nat) (m' : Msg)
    (h : validate m e = .ok m') : m.len = e ∧ m' = ⟨m.raw, e - 2⟩ := by
  unfold validate at h
  split at h
  · exact absurd h (by simp)
  · split at h
    · rename_i h1 _
      refine ⟨by omega, ?_⟩
      cases h
      rw [show m.len = e by omega]
    · exact absurd h (by simp)

theorem validate_isOk (m : Msg) (e : Nat)
    (h : (validate m e).isOk = true) :
    m.len = e ∧ validate m e = .ok ⟨m.raw, e - 2⟩ := by
  cases hv : validate m e with
  | error err => rw [hv] at h; simp [Except.isOk, Except.toBool] at h
  | ok m' =>
      obtain ⟨h1, h2⟩ := validate_ok_inv m e m' hv
      exact ⟨h1, by rw [h2]⟩

theorem validate_mkFrame (body : List Nat) :
    validate (Msg.ofBytes (mkFrame body)) (body.length + 2) =
      .ok ⟨(Msg.ofBytes (mkFrame body)).raw, body.length⟩ ∧
    Msg.bytes ⟨(Msg.ofBytes (mkFrame body)).raw, body.length⟩ = body := by
  have hlen : (Msg.ofBytes (mkFrame body)).len = body.length + 2 := by
    simp [Msg.ofBytes, mkFrame]
  have hbytes : (Msg.ofBytes (mkFrame body)).bytes = mkFrame body :=
    Msg.ofBytes_bytes _
  have htake : (mkFrame body).take body.length = body := by
    simp [mkFrame]
  have hget1 : (mkFrame body).getD body.length 0 = crc16 body % 256 := by
    unfold mkFrame
    rw [List.getD_append_right body [crc16 body % 256, crc16 body / 256]
      0 body.length le_rfl]
    simp
  have hget2 : (mkFrame body).getD (body.length + 1) 0 = crc16 body / 256 := by
    unfold mkFrame
    rw [List.getD_append_right body [crc16 body % 256, crc16 body / 256]
      0 (body.length + 1) (by omega)]
    simp
  constructor
  · unfold validate
    rw [if_neg (by omega)]
    rw [if_pos]
    · rw [hlen]
      simp
    · rw [hbytes, hlen]
      simp only [Nat.add_sub_cancel, htake]
      constructor
      · exact hget1
      · rw [show body.length + 2 - 1 = body.length + 1 by omega]
        exact hget2
  · rw [Msg.bytes_mk_take (Msg.ofBytes (mkFrame body)) body.length
      (by rw [hlen]; omega), hbytes, htake]

theorem recordChunks_length (ds : List (List Nat)) :
    (recordChunks ds).length =
      (ds.map (fun d => 2 + 2 * d.length)).sum := by
  induction ds with
  | nil => rfl
  | cons d t ih =>
      simp [recordChunks, recordChunk, beWords_length, ih]
      omega

theorem readFileRecordRespInitLen_eq (sizes : List Nat) :
    readFileRecordRespInitLen sizes =
      5 + (sizes.map (fun s => 2 + 2 * s)).sum := by
  unfold readFileRecordRespInitLen
  suffices h : ∀ a : Nat,
      sizes.foldl (fun l s => l + (2 + 2 * s)) a =
        a + (sizes.map (fun s => 2 + 2 * s)).sum by
    exact h 5
  induction sizes with
  | nil => intro a; simp
  | cons s t ih =>
      intro a
      simp only [List.foldl_cons, List.map_cons, List.sum_cons, ih]
      omega

theorem popRecords_spec (datas : List (List Nat)) (m : Msg) (q : List Nat)
    (hw : ∀ d ∈ datas, ∀ w ∈ d, w < 65536)
    (h : m.bytes = q ++ recordChunks datas) :
    popRecords (datas.map List.length) m =
      .ok (datas, ⟨m.raw, m.len - (recordChunks datas).length⟩) ∧
      Msg.bytes ⟨m.raw, m.len - (recordChunks datas).length⟩ = q := by
  induction datas generalizing m q with
  | nil =>
      constructor
      · simp [popRecords, recordChunks]
      · simpa [recordChunks] using h
  | cons d t ih =>
      have h1 : m.bytes = (q ++ recordChunk d) ++ recordChunks t := by
        rw [h, recordChunks, List.append_assoc]
      obtain ⟨hpop1, hbytes1⟩ := ih m (q ++ recordChunk d)
        (fun x hx => hw x (by simp [hx])) h1
      have hlen1 : m.len = q.length + (recordChunks (d :: t)).length := by
        have := m.bytes_length
        rw [h] at this
        simp at this
        omega
      have hbytes1' :
          Msg.bytes ⟨m.raw, m.len - (recordChunks t).length⟩ =
            (q ++ ((1 + d.length * 2) :: [6])) ++ beWords d := by
        rw [hbytes1]
        simp [recordChunk]
      obtain ⟨hpop2, hbytes2⟩ := popRegs_spec d
        ⟨m.raw, m.len - (recordChunks t).length⟩
        (q ++ ((1 + d.length * 2) :: [6]))
        (fun w hwd => hw d (by simp) w hwd) hbytes1'
      have hbytes2' :
          Msg.bytes ⟨m.raw,
              m.len - (recordChunks t).length - 2 * d.length⟩ =
            (q ++ [1 + d.length * 2]) ++ [6] := by
        rw [hbytes2]
        simp
      obtain ⟨hpop3, hbytes3⟩ := popByte_spec
        ⟨m.raw, m.len - (recordChunks t).length - 2 * d.length⟩
        (q ++ [1 + d.length * 2]) 6 hbytes2'
      have hbytes3' :
          Msg.bytes ⟨m.raw,
              m.len - (recordChunks t).length - 2 * d.length - 1⟩ =
            q ++ [1 + d.length * 2] := by
        simpa using hbytes3
      obtain ⟨hpop4, hbytes4⟩ := popByte_spec
        ⟨m.raw, m.len - (recordChunks t).length - 2 * d.length - 1⟩
        q (1 + d.length * 2) hbytes3'
      have hL : (recordChunks (d :: t)).length =
          (recordChunks t).length + 2 * d.length + 2 := by
        simp [recordChunks, recordChunk, beWords_length]
        omega
      constructor
      · simp only [List.map_cons, popRecords, bind, Except.bind, hpop1,
          hpop2, hpop3, hpop4]
        simp only [check_value, if_neg (by omega : ¬ (6 : Nat) ≠ 6),
          if_neg (by omega : ¬ 1 + d.length * 2 ≠ 1 + d.length * 2)]
        simp only [pure, Except.pure, Except.bind]
        have : m.len - (recordChunks t).length - 2 * d.length - 1 - 1 =
            m.len - (recordChunks (d :: t)).length := by
          rw [hL]; omega
        rw [this]
      · have : m.len - (recordChunks t).length - 2 * d.length - 1 - 1 =
            m.len - (recordChunks (d :: t)).length := by
          rw [hL]; omega
        rw [← this]
        simpa using hbytes4

theorem foldl_applyStep_inv (steps : List StoreStep) (s : RegisterStore)
    (h1 : s.history.length = 1) (h2 : s.idx = 0) :
    (steps.foldl RegisterStore.applyStep s).history.length = 1 ∧
      (steps.foldl RegisterStore.applyStep s).idx = 0 := by
  induction steps generalizing s with
  | nil => exact ⟨h1, h2⟩
  | cons st rest ih =>
      cases st with
      | adv =>
          apply ih
          · exact h1
          · simp [RegisterStore.applyStep, RegisterStore.advance, h1, h2]
      | write r =>
          apply ih
          · simp [RegisterStore.applyStep, RegisterStore.writeAdvance,
              RegisterStore.advance, RegisterStore.setFront, h1]
          · simp [RegisterStore.applyStep, RegisterStore.writeAdvance,
              RegisterStore.advance, RegisterStore.setFront, h1, h2]

/-! ## Claim theorems -/

/-- C3: for a RegisterStore with capacity at least 1 and cursor in range,
front() is the slot at idx, back() the slot at idx - 1 (the last slot
when idx = 0), and advance sets idx to (idx + 1) mod capacity; and for
keep = 3, after writing w0, w1, w2, w3 into front() with an advance after
each write, back() holds w3, the retained slots are exactly w1, w2, w3,
and w0 is overwritten. -/
theorem registerStore_ring_semantics (s : RegisterStore)
    (d : RegisterDescriptor) (w0 w1 w2 w3 : Register)
    (h1 : 1 ≤ s.history.length) (h2 : s.idx < s.history.length)
    (hk : d.keep = 3) :
    s.front = s.history.getD s.idx dummyRegister ∧
    s.back = (if s.idx = 0
              then s.history.getD (s.history.length - 1) dummyRegister
              else s.history.getD (s.idx - 1) dummyRegister) ∧
    s.advance.idx = (s.idx + 1) % s.history.length ∧
    (RegisterStore.ofDesc d).history.length = d.keep ∧
    (((((RegisterStore.ofDesc d).writeAdvance w0).writeAdvance
        w1).writeAdvance w2).writeAdvance w3).back = w3 ∧
    (((((RegisterStore.ofDesc d).writeAdvance w0).writeAdvance
        w1).writeAdvance w2).writeAdvance w3).history = [w3, w1, w2] ∧
    (w0 ≠ w1 → w0 ≠ w2 → w0 ≠ w3 →
      w0 ∉ (((((RegisterStore.ofDesc d).writeAdvance w0).writeAdvance
        w1).writeAdvance w2).writeAdvance w3).history) := by
  obtain ⟨db, dl, dn, dk, dc⟩ := d
  simp only [RegisterDescriptor.keep] at hk
  subst hk
  have hs : ((((RegisterStore.ofDesc ⟨db, dl, dn, 3, dc⟩).writeAdvance
      w0).writeAdvance w1).writeAdvance w2).writeAdvance w3 =
      ⟨⟨db, dl, dn, 3, dc⟩, db, [w3, w1, w2], 1⟩ := by
    simp [RegisterStore.ofDesc, RegisterStore.writeAdvance,
      RegisterStore.setFront, RegisterStore.advance, List.replicate]
  refine ⟨rfl, rfl, rfl, rfl, ?_, ?_, ?_⟩
  · rw [hs]
    rfl
  · rw [hs]
  · intro hn1 hn2 hn3
    rw [hs]
    simp only [List.mem_cons, List.not_mem_nil, or_false]
    push_neg
    exact ⟨hn3, hn1, hn2⟩

/-- C4: Register equality holds exactly when both timestamps are non-zero
and the raw words agree; any comparison with a timestamp-0 operand is
not-equal under both operators. -/
theorem register_eq_semantics (a b : Register) :
    (Register.beq a b = true ↔
      (a.timestamp ≠ 0 ∧ b.timestamp ≠ 0 ∧ a.value = b.value)) ∧
    ((a.timestamp = 0 ∨ b.timestamp = 0) →
      Register.beq a b = false ∧ Register.bne a b = true) := by
  constructor
  · simp [Register.beq]
  · intro h
    rcases h with h | h <;> simp [Register.beq, Register.bne, h]

/-- C9: the not-equals operator of Register is exactly the boolean
negation of the equals operator, for every pair of registers, including
invalid (timestamp-0) operands. -/
theorem register_ne_is_not_eq (a b : Register) :
    Register.bne a b = !(Register.beq a b) := by
  simp only [Register.beq, Register.bne, bne]
  generalize (a.timestamp == 0) = p
  generalize (b.timestamp == 0) = q
  generalize (a.value == b.value) = r
  cases p <;> cases q <;> cases r <;> rfl

/-- C10: with keep = 1 the cursor stays 0 in every state reachable by
advances and writes from the freshly constructed store, so front() and
back() always denote the same single slot. -/
theorem registerStore_keep1_front_eq_back (d : RegisterDescriptor)
    (hk : d.keep = 1) (steps : List StoreStep) :
    (steps.foldl RegisterStore.applyStep (RegisterStore.ofDesc d)).idx = 0 ∧
    (steps.foldl RegisterStore.applyStep (RegisterStore.ofDesc d)).front =
      (steps.foldl RegisterStore.applyStep (RegisterStore.ofDesc d)).back
    := by
  obtain ⟨hl, hi⟩ := foldl_applyStep_inv steps (RegisterStore.ofDesc d)
    (by simp [RegisterStore.ofDesc, hk]) rfl
  refine ⟨hi, ?_⟩
  unfold RegisterStore.front RegisterStore.back
  rw [hi, if_pos rfl, hl]

/-- C7: constructing a ReadHoldingRegistersResp from an empty register
vector raises an underflow error; from a non-empty vector of size count
it records the expected frame length 5 + 2 * count. -/
theorem readHoldingResp_ctor_underflow_and_len (regs : List Nat)
    (h : regs ≠ []) :
    readHoldingRegistersRespInit [] = .error .underflow ∧
    readHoldingRegistersRespInit regs = .ok (5 + 2 * regs.length) := by
  constructor
  · rfl
  · unfold readHoldingRegistersRespInit
    rw [if_neg (by simpa using h)]

/-- C8: WriteMultipleRegistersReq::encode with no data appended past the
7-byte header reservation raises an underflow error and emits nothing. -/
theorem writeMultipleReq_encode_underflow (a off : Nat) (m : Msg)
    (h : m.len ≤ 7) :
    writeMultipleRegistersReqEncode a off m = .error .underflow := by
  unfold writeMultipleRegistersReqEncode
  rw [if_pos h]

/-- Witness for C3 at a concrete descriptor and concrete registers. -/
theorem registerStore_ring_semantics_witness :
    ((⟨⟨7, 1, "r", 3, false⟩, 7, [⟨⟨7, 1, "r", 3, false⟩, 1, [10]⟩], 0⟩ :
        RegisterStore).front =
      (⟨⟨7, 1, "r", 3, false⟩, 1, [10]⟩ : Register)) ∧
    (((((RegisterStore.ofDesc ⟨7, 1, "r", 3, false⟩).writeAdvance
        ⟨⟨7, 1, "r", 3, false⟩, 1, [0]⟩).writeAdvance
        ⟨⟨7, 1, "r", 3, false⟩, 2, [1]⟩).writeAdvance
        ⟨⟨7, 1, "r", 3, false⟩, 3, [2]⟩).writeAdvance
        ⟨⟨7, 1, "r", 3, false⟩, 4, [3]⟩).back =
      (⟨⟨7, 1, "r", 3, false⟩, 4, [3]⟩ : Register) := by
  have h := registerStore_ring_semantics
    ⟨⟨7, 1, "r", 3, false⟩, 7, [⟨⟨7, 1, "r", 3, false⟩, 1, [10]⟩], 0⟩
    ⟨7, 1, "r", 3, false⟩
    ⟨⟨7, 1, "r", 3, false⟩, 1, [0]⟩ ⟨⟨7, 1, "r", 3, false⟩, 2, [1]⟩
    ⟨⟨7, 1, "r", 3, false⟩, 3, [2]⟩ ⟨⟨7, 1, "r", 3, false⟩, 4, [3]⟩
    (by decide) (by decide) rfl
  exact ⟨by rw [h.1]; decide, h.2.2.2.2.1⟩

/-- Witness for C4 at concrete registers: a valid and an invalid
reading. -/
theorem register_eq_semantics_witness :
    ((⟨⟨0, 1, "", 1, false⟩, 0, [5]⟩ : Register).timestamp = 0 ∨
      (⟨⟨0, 1, "", 1, false⟩, 3, [5]⟩ : Register).timestamp = 0) ∧
    Register.beq ⟨⟨0, 1, "", 1, false⟩, 0, [5]⟩
        ⟨⟨0, 1, "", 1, false⟩, 3, [5]⟩ = false ∧
    Register.bne ⟨⟨0, 1, "", 1, false⟩, 0, [5]⟩
        ⟨⟨0, 1, "", 1, false⟩, 3, [5]⟩ = true := by
  have h := register_eq_semantics ⟨⟨0, 1, "", 1, false⟩, 0, [5]⟩
    ⟨⟨0, 1, "", 1, false⟩, 3, [5]⟩
  exact ⟨Or.inl rfl, h.2 (Or.inl rfl)⟩

/-- Witness for C10 at a concrete keep-1 descriptor and a concrete step
sequence. -/
theorem registerStore_keep1_front_eq_back_witness :
    ([StoreStep.adv, StoreStep.write ⟨⟨2, 1, "x", 1, true⟩, 9, [4]⟩,
        StoreStep.adv].foldl RegisterStore.applyStep
      (RegisterStore.ofDesc ⟨2, 1, "x", 1, true⟩)).idx = 0 ∧
    ([StoreStep.adv, StoreStep.write ⟨⟨2, 1, "x", 1, true⟩, 9, [4]⟩,
        StoreStep.adv].foldl RegisterStore.applyStep
      (RegisterStore.ofDesc ⟨2, 1, "x", 1, true⟩)).front =
    ([StoreStep.adv, StoreStep.write ⟨⟨2, 1, "x", 1, true⟩, 9, [4]⟩,
        StoreStep.adv].foldl RegisterStore.applyStep
      (RegisterStore.ofDesc ⟨2, 1, "x", 1, true⟩)).back :=
  registerStore_keep1_front_eq_back ⟨2, 1, "x", 1, true⟩ rfl
    [StoreStep.adv, StoreStep.write ⟨⟨2, 1, "x", 1, true⟩, 9, [4]⟩,
      StoreStep.adv]

/-- Witness for C7 at a concrete one-register vector. -/
theorem readHoldingResp_ctor_underflow_and_len_witness :
    readHoldingRegistersRespInit [] = .error .underflow ∧
    readHoldingRegistersRespInit [99] = .ok 7 :=
  readHoldingResp_ctor_underflow_and_len [99] (by decide)

/-- Witness for C8 at a concrete request state with no appended data. -/
theorem writeMultipleReq_encode_underflow_witness :
    writeMultipleRegistersReqEncode 1 2 ⟨fun _ => 0, 7⟩ =
      .error .underflow :=
  writeMultipleReq_encode_underflow 1 2 ⟨fun _ => 0, 7⟩ (by decide)

/-- C2: for every Read Holding Registers response buffer that passes
validate(), an echoed function-code byte other than 0x03 makes decode
raise bad_resp_error naming the field "function" and carrying expected
value 3 and the actual byte. -/
theorem readHolding_function_mismatch_raises (n : Nat) (frame : List Nat)
    (hv : (validate (Msg.ofBytes frame) (5 + 2 * n)).isOk = true)
    (hf : frame.getD 1 0 ≠ 3) :
    readHoldingRegistersRespDecode n frame =
      .error (.badResp "function" 3 (frame.getD 1 0)) := by
  obtain ⟨hlen, hval⟩ := validate_isOk _ _ hv
  unfold readHoldingRegistersRespDecode
  simp only [bind, Except.bind, hval]
  obtain ⟨ws, hws, hpop⟩ := popRegs_any n
    ⟨(Msg.ofBytes frame).raw, 5 + 2 * n - 2⟩ (by simp; omega)
  rw [show (5 + 2 * n - 2 : Nat) - 2 * n = 3 by omega] at hpop
  simp only [hpop]
  rw [popByte_ok ⟨(Msg.ofBytes frame).raw, 3⟩ (by simp)]
  rw [show ((3 : Nat) - 1) = 2 by omega]
  dsimp only
  rw [popByte_ok ⟨(Msg.ofBytes frame).raw, 2⟩ (by simp)]
  rw [show ((2 : Nat) - 1) = 1 by omega]
  dsimp only
  rw [popByte_ok ⟨(Msg.ofBytes frame).raw, 1⟩ (by simp)]
  dsimp only
  have hraw : (Msg.ofBytes frame).raw 1 = frame.getD 1 0 := rfl
  simp only [check_value, hraw, if_pos hf, Except.bind]

/-- Witness for C2: a CRC-valid single-register response frame echoing
function code 4 is rejected naming the field "function". -/
theorem readHolding_function_mismatch_raises_witness :
    (validate (Msg.ofBytes (mkFrame [1, 4, 2, 0, 5])) (5 + 2 * 1)).isOk
      = true ∧
    readHoldingRegistersRespDecode 1 (mkFrame [1, 4, 2, 0, 5]) =
      .error (.badResp "function" 3 ((mkFrame [1, 4, 2, 0, 5]).getD 1 0)) :=
  ⟨by decide,
    readHolding_function_mismatch_raises 1 (mkFrame [1, 4, 2, 0, 5])
      (by decide) (by decide)⟩

/-- C1 counterexample: a CRC-valid Read Holding Registers response whose
echoed device address 9 differs from the request target (address 1)
decodes successfully, raising no bad_resp_error, because
ReadHoldingRegistersResp::decode never checks the popped device address;
likewise WriteSingleRegisterResp::decode (request built for address 1)
accepts an echoed device address 9. -/
theorem readHolding_writeSingle_accept_foreign_addr :
    readHoldingRegistersRespDecode 1 (mkFrame [9, 3, 2, 0, 5]) =
      .ok ([5], 2, 3, 9) ∧
    writeSingleRegisterRespDecode 1 1 (some 3)
        (mkFrame [9, 6, 0, 1, 0, 3]) =
      .ok (3, 1, 6, 9) ∧
    (9 : Nat) ≠ 1 := by
  refine ⟨by decide, by decide, by decide⟩

/-- C1 amended: the device-address rejection exists only where
check_value is invoked on the popped address, namely in
WriteMultipleRegistersResp::decode: a response passing validate() whose
echoed device address differs from the expected one raises
bad_resp_error carrying the field name dev_addr, the expected value and
the actual value. -/
theorem writeMultiple_dev_addr_mismatch_raises
    (ea eoff ecnt : Nat) (frame : List Nat)
    (hv : (validate (Msg.ofBytes frame) 8).isOk = true)
    (ha : frame.getD 0 0 ≠ ea) :
    writeMultipleRegistersRespDecode ea eoff ecnt frame =
      .error (.badResp "dev_addr" ea (frame.getD 0 0)) := by
  obtain ⟨hlen, hval⟩ := validate_isOk _ _ hv
  unfold writeMultipleRegistersRespDecode
  simp only [bind, Except.bind, hval]
  rw [show ((8 : Nat) - 2) = 6 by omega]
  rw [popU16_ok ⟨(Msg.ofBytes frame).raw, 6⟩ (by simp)]
  dsimp only
  rw [show ((6 : Nat) - 2) = 4 by omega]
  rw [popU16_ok ⟨(Msg.ofBytes frame).raw, 4⟩ (by simp)]
  dsimp only
  rw [show ((4 : Nat) - 2) = 2 by omega]
  rw [popByte_ok ⟨(Msg.ofBytes frame).raw, 2⟩ (by simp)]
  rw [show ((2 : Nat) - 1) = 1 by omega]
  dsimp only
  rw [popByte_ok ⟨(Msg.ofBytes frame).raw, 1⟩ (by simp)]
  dsimp only
  have hraw : (Msg.ofBytes frame).raw 0 = frame.getD 0 0 := rfl
  simp only [check_value, hraw, if_pos ha, Except.bind]

/-- Witness for the amended C1: a CRC-valid Write Multiple Registers
response echoing device address 9 against expected address 1 is rejected
naming the field dev_addr with expected 1 and actual 9. -/
theorem writeMultiple_dev_addr_mismatch_raises_witness :
    (validate (Msg.ofBytes (mkFrame [9, 16, 0, 5, 0, 2])) 8).isOk = true ∧
    writeMultipleRegistersRespDecode 1 5 2 (mkFrame [9, 16, 0, 5, 0, 2]) =
      .error (.badResp "dev_addr" 1
        ((mkFrame [9, 16, 0, 5, 0, 2]).getD 0 0)) :=
  ⟨by decide,
    writeMultiple_dev_addr_mismatch_raises 1 5 2
      (mkFrame [9, 16, 0, 5, 0, 2]) (by decide) (by decide)⟩

theorem crcShift_lt (c : Nat) (h : c < 65536) : crcShift c < 65536 := by
  unfold crcShift
  split
  · have h2 : c / 2 ^^^ 0xA001 < 2 ^ 16 :=
      Nat.xor_lt_two_pow (by omega) (by omega)
    omega
  · omega

theorem crcByte_lt (c b : Nat) (hc : c < 65536) (hb : b < 65536) :
    crcByte c b < 65536 := by
  unfold crcByte
  have h0 : c ^^^ b < 2 ^ 16 := Nat.xor_lt_two_pow (by omega) (by omega)
  exact crcShift_lt _ (crcShift_lt _ (crcShift_lt _ (crcShift_lt _
    (crcShift_lt _ (crcShift_lt _ (crcShift_lt _ (crcShift_lt _
      (by omega))))))))

theorem crc16_lt (l : List Nat) (h : ∀ b ∈ l, b < 65536) :
    crc16 l < 65536 := by
  have general : ∀ l' : List Nat, (∀ b ∈ l', b < 65536) →
      ∀ c, c < 65536 → l'.foldl crcByte c < 65536 := by
    intro l'
    induction l' with
    | nil => intro _ c hc; simpa using hc
    | cons x t ih =>
        intro hl c hc
        simp only [List.foldl_cons]
        exact ih (fun b hb => hl b (List.mem_cons_of_mem _ hb)) _
          (crcByte_lt c x hc (hl x (List.mem_cons_self _ _)))
  exact general l h 0xFFFF (by omega)

theorem finalize_bytes_mkFrame (m : Msg) (h : ∀ b ∈ m.bytes, b < 65536) :
    (finalize m).bytes = mkFrame m.bytes := by
  rw [finalize_bytes, mkFrame]
  have hc := crc16_lt m.bytes h
  rw [Nat.mod_eq_of_lt (show crc16 m.bytes / 256 < 256 by omega)]

theorem pushByte_len (b : Nat) (m : Msg) : (pushByte b m).len = m.len + 1 :=
  rfl

theorem pushU16_len (v : Nat) (m : Msg) : (pushU16 v m).len = m.len + 2 :=
  rfl

theorem pushByte_raw_of_ge (b : Nat) (m : Msg) (j : Nat)
    (h : m.len + 1 ≤ j) : (pushByte b m).raw j = m.raw j :=
  pushByte_raw_ne b m j (by omega)

theorem pushU16_raw_of_ge (v : Nat) (m : Msg) (j : Nat)
    (h : m.len + 2 ≤ j) : (pushU16 v m).raw j = m.raw j := by
  unfold pushU16
  rw [pushByte_raw_of_ge _ _ _ (by rw [pushByte_len]; omega)]
  exact pushByte_raw_of_ge _ _ _ (by omega)

theorem header_bytes (a off rc dl : Nat) (raw : Nat → Nat)
    (ha : a < 256) (hoff : off < 65536) (hrc : rc < 65536) (hdl : dl < 256) :
    (pushByte dl (pushU16 rc (pushU16 off (pushByte 0x10
      (pushByte a ⟨raw, 0⟩))))).bytes =
      [a, 0x10, off / 256, off % 256, rc / 256, rc % 256, dl] := by
  simp only [pushU16, pushByte_bytes]
  have h0 : Msg.bytes ⟨raw, 0⟩ = [] := rfl
  rw [h0]
  simp [Nat.mod_eq_of_lt ha, Nat.mod_eq_of_lt hdl,
    Nat.mod_eq_of_lt (show off / 256 < 256 by omega),
    Nat.mod_eq_of_lt (show rc / 256 < 256 by omega)]

theorem header_len (a off rc dl : Nat) (raw : Nat → Nat) :
    (pushByte dl (pushU16 rc (pushU16 off (pushByte 0x10
      (pushByte a ⟨raw, 0⟩))))).len = 7 := rfl

theorem header_raw_ge (a off rc dl : Nat) (raw : Nat → Nat) (j : Nat)
    (hj : 7 ≤ j) :
    (pushByte dl (pushU16 rc (pushU16 off (pushByte 0x10
      (pushByte a ⟨raw, 0⟩))))).raw j = raw j := by
  rw [pushByte_raw_of_ge _ _ _
    (by simp only [pushU16_len, pushByte_len]; omega)]
  rw [pushU16_raw_of_ge _ _ _
    (by simp only [pushU16_len, pushByte_len]; omega)]
  rw [pushU16_raw_of_ge _ _ _ (by simp only [pushByte_len]; omega)]
  rw [pushByte_raw_of_ge _ _ _ (by simp only [pushByte_len]; omega)]
  exact pushByte_raw_of_ge _ _ _ (show 0 + 1 ≤ j by omega)

/-- C5: WriteMultipleRegistersReq::encode with d appended data bytes pads
an odd payload with one zero byte (incrementing the declared data
length), sets reg_count to data_len / 2, and emits dev_addr, function
0x10, starting_addr (big-endian), reg_count (big-endian), data_len, in
that order, before the (possibly padded) data and the CRC; the declared
register count always covers the even-length payload. -/
theorem writeMultipleReq_encode_pads_and_counts
    (a off : Nat) (m : Msg) (d : Nat)
    (ha : a < 256) (hoff : off < 65536) (hlen : m.len = 7 + d)
    (hd1 : 1 ≤ d) (hd2 : d ≤ 254)
    (hdata : ∀ i, i < d → m.raw (7 + i) < 256) :
    (writeMultipleRegistersReqEncode a off m).map Msg.bytes =
      .ok (mkFrame ([a, 0x10, off / 256, off % 256,
          (if d % 2 = 1 then d + 1 else d) / 2 / 256,
          (if d % 2 = 1 then d + 1 else d) / 2 % 256,
          if d % 2 = 1 then d + 1 else d] ++
        ((List.range d).map (fun i => m.raw (7 + i)) ++
          if d % 2 = 1 then [0] else []))) ∧
    2 * ((if d % 2 = 1 then d + 1 else d) / 2) =
      (if d % 2 = 1 then d + 1 else d) := by
  unfold writeMultipleRegistersReqEncode
  rw [if_neg (show ¬ m.len ≤ 7 by omega)]
  have hdl0 : (m.len - 7) % 256 = d := by omega
  by_cases hpar : d % 2 = 1
  · simp only [hdl0, if_pos hpar, if_pos (show d % 2 ≠ 0 by omega)]
    rw [show (d + 1) % 256 = d + 1 by omega]
    refine ⟨?_, by omega⟩
    have hm4 : Msg.bytes ⟨(pushByte (d + 1) (pushU16 ((d + 1) / 2)
        (pushU16 off (pushByte 0x10 (pushByte a
          ⟨(pushByte 0 m).raw, 0⟩))))).raw,
        (pushByte (d + 1) (pushU16 ((d + 1) / 2) (pushU16 off
          (pushByte 0x10 (pushByte a ⟨(pushByte 0 m).raw, 0⟩))))).len +
          (d + 1)⟩ =
        [a, 0x10, off / 256, off % 256, (d + 1) / 2 / 256,
          (d + 1) / 2 % 256, d + 1] ++
        ((List.range d).map (fun i => m.raw (7 + i)) ++ [0]) := by
      rw [show (⟨(pushByte (d + 1) (pushU16 ((d + 1) / 2) (pushU16 off
          (pushByte 0x10 (pushByte a ⟨(pushByte 0 m).raw, 0⟩))))).raw,
          (pushByte (d + 1) (pushU16 ((d + 1) / 2) (pushU16 off
            (pushByte 0x10 (pushByte a ⟨(pushByte 0 m).raw, 0⟩))))).len +
            (d + 1)⟩ : Msg).bytes =
        (List.range (7 + (d + 1))).map (pushByte (d + 1) (pushU16
          ((d + 1) / 2) (pushU16 off (pushByte 0x10 (pushByte a
            ⟨(pushByte 0 m).raw, 0⟩))))).raw from rfl]
      rw [List.range_add, List.map_append, List.map_map]
      congr 1
      · rw [show (List.range 7).map (pushByte (d + 1) (pushU16
            ((d + 1) / 2) (pushU16 off (pushByte 0x10 (pushByte a
              ⟨(pushByte 0 m).raw, 0⟩))))).raw =
            (pushByte (d + 1) (pushU16 ((d + 1) / 2) (pushU16 off
              (pushByte 0x10 (pushByte a
                ⟨(pushByte 0 m).raw, 0⟩))))).bytes from rfl]
        exact header_bytes a off ((d + 1) / 2) (d + 1) (pushByte 0 m).raw
          ha hoff (by omega) (by omega)
      · rw [List.range_succ, List.map_append]
        congr 1
        · apply List.map_congr_left
          intro i hi
          have hi' : i < d := by simpa using hi
          rw [Function.comp_apply, header_raw_ge _ _ _ _ _ _ (by omega)]
          exact pushByte_raw_ne 0 m (7 + i) (by omega)
        · simp only [List.map_cons, List.map_nil, Function.comp_apply]
          rw [header_raw_ge _ _ _ _ _ _ (by omega)]
          simp [pushByte, hlen]
    have hbound : ∀ b ∈ [a, 0x10, off / 256, off % 256,
        (d + 1) / 2 / 256, (d + 1) / 2 % 256, d + 1] ++
        ((List.range d).map (fun i => m.raw (7 + i)) ++ [0]), b < 65536 := by
      intro b hb
      simp only [List.mem_append, List.mem_cons, List.not_mem_nil,
        or_false, List.mem_map, List.mem_range] at hb
      rcases hb with ((h | h | h | h | h | h | h) | ⟨i, hi, rfl⟩ | h) <;>
        first
          | (subst h; omega)
          | (exact lt_trans (hdata _ hi) (by omega))
    rw [show Except.map Msg.bytes (Except.ok (finalize
        ⟨(pushByte (d + 1) (pushU16 ((d + 1) / 2) (pushU16 off
          (pushByte 0x10 (pushByte a ⟨(pushByte 0 m).raw, 0⟩))))).raw,
        (pushByte (d + 1) (pushU16 ((d + 1) / 2) (pushU16 off
          (pushByte 0x10 (pushByte a ⟨(pushByte 0 m).raw, 0⟩))))).len +
          (d + 1)⟩)) =
        Except.ok ((finalize ⟨(pushByte (d + 1) (pushU16 ((d + 1) / 2)
          (pushU16 off (pushByte 0x10 (pushByte a
            ⟨(pushByte 0 m).raw, 0⟩))))).raw,
        (pushByte (d + 1) (pushU16 ((d + 1) / 2) (pushU16 off
          (pushByte 0x10 (pushByte a ⟨(pushByte 0 m).raw, 0⟩))))).len +
          (d + 1)⟩).bytes) from rfl]
    rw [finalize_bytes_mkFrame _ (by rw [hm4]; exact hbound), hm4]
  · simp only [hdl0, if_neg hpar, if_neg (show ¬ d % 2 ≠ 0 by omega)]
    refine ⟨?_, by omega⟩
    have hm4 : Msg.bytes ⟨(pushByte d (pushU16 (d / 2)
        (pushU16 off (pushByte 0x10 (pushByte a ⟨m.raw, 0⟩))))).raw,
        (pushByte d (pushU16 (d / 2) (pushU16 off
          (pushByte 0x10 (pushByte a ⟨m.raw, 0⟩))))).len + d⟩ =
        [a, 0x10, off / 256, off % 256, d / 2 / 256, d / 2 % 256, d] ++
        ((List.range d).map (fun i => m.raw (7 + i)) ++ []) := by
      rw [show (⟨(pushByte d (pushU16 (d / 2) (pushU16 off
          (pushByte 0x10 (pushByte a ⟨m.raw, 0⟩))))).raw,
          (pushByte d (pushU16 (d / 2) (pushU16 off
            (pushByte 0x10 (pushByte a ⟨m.raw, 0⟩))))).len + d⟩ :
            Msg).bytes =
        (List.range (7 + d)).map (pushByte d (pushU16 (d / 2) (pushU16 off
          (pushByte 0x10 (pushByte a ⟨m.raw, 0⟩))))).raw from rfl]
      rw [List.range_add, List.map_append, List.map_map, List.append_nil]
      congr 1
      · rw [show (List.range 7).map (pushByte d (pushU16 (d / 2)
            (pushU16 off (pushByte 0x10 (pushByte a
              ⟨m.raw, 0⟩))))).raw =
            (pushByte d (pushU16 (d / 2) (pushU16 off (pushByte 0x10
              (pushByte a ⟨m.raw, 0⟩))))).bytes from rfl]
        exact header_bytes a off (d / 2) d m.raw ha hoff (by omega)
          (by omega)
      · apply List.map_congr_left
        intro i hi
        have hi' : i < d := by simpa using hi
        rw [Function.comp_apply]
        exact header_raw_ge _ _ _ _ _ _ (by omega)
    have hbound : ∀ b ∈ [a, 0x10, off / 256, off % 256,
        d / 2 / 256, d / 2 % 256, d] ++
        ((List.range d).map (fun i => m.raw (7 + i)) ++ []), b < 65536 := by
      intro b hb
      simp only [List.mem_append, List.mem_cons, List.not_mem_nil,
        or_false, List.mem_map, List.mem_range, List.append_nil] at hb
      rcases hb with ((h | h | h | h | h | h | h) | ⟨i, hi, rfl⟩) <;>
        first
          | (subst h; omega)
          | (exact lt_trans (hdata _ hi) (by omega))
    rw [show Except.map Msg.bytes (Except.ok (finalize
        ⟨(pushByte d (pushU16 (d / 2) (pushU16 off (pushByte 0x10
          (pushByte a ⟨m.raw, 0⟩))))).raw,
        (pushByte d (pushU16 (d / 2) (pushU16 off (pushByte 0x10
          (pushByte a ⟨m.raw, 0⟩))))).len + d⟩)) =
        Except.ok ((finalize ⟨(pushByte d (pushU16 (d / 2) (pushU16 off
          (pushByte 0x10 (pushByte a ⟨m.raw, 0⟩))))).raw,
        (pushByte d (pushU16 (d / 2) (pushU16 off (pushByte 0x10
          (pushByte a ⟨m.raw, 0⟩))))).len + d⟩).bytes) from rfl]
    rw [finalize_bytes_mkFrame _ (by rw [hm4]; exact hbound), hm4]

/-- Witness for C5: encoding a request with one appended data byte 0xAB
pads to two bytes, declares one register, and emits the documented
header order. -/
theorem writeMultipleReq_encode_pads_and_counts_witness :
    ((2 : Nat) < 256 ∧ (258 : Nat) < 65536 ∧
      (pushByte 0xAB ⟨fun _ => 0, 7⟩ : Msg).len = 7 + 1 ∧
      (1 : Nat) ≤ 1 ∧ (1 : Nat) ≤ 254) ∧
    (writeMultipleRegistersReqEncode 2 258
        (pushByte 0xAB ⟨fun _ => 0, 7⟩)).map Msg.bytes =
      .ok (mkFrame ([2, 0x10, 258 / 256, 258 % 256,
          (if 1 % 2 = 1 then 1 + 1 else 1) / 2 / 256,
          (if 1 % 2 = 1 then 1 + 1 else 1) / 2 % 256,
          if 1 % 2 = 1 then 1 + 1 else 1] ++
        ((List.range 1).map (fun i =>
            (pushByte 0xAB ⟨fun _ => 0, 7⟩ : Msg).raw (7 + i)) ++
          if 1 % 2 = 1 then [0] else []))) ∧
    2 * ((if 1 % 2 = 1 then 1 + 1 else 1) / 2) =
      (if 1 % 2 = 1 then 1 + 1 else 1) := by
  refine ⟨⟨by decide, by decide, by decide, by decide, by decide⟩, ?_⟩
  exact writeMultipleReq_encode_pads_and_counts 2 258
    (pushByte 0xAB ⟨fun _ => 0, 7⟩) 1 (by decide) (by decide) (by decide)
    (by decide) (by decide) (by decide)

theorem popRecords_lastRef (pre : List Nat) (sl : Nat) (m : Msg)
    (hlen : 2 * sl + 2 ≤ m.len) (href : m.raw (m.len - 2 * sl - 1) ≠ 6) :
    popRecords (pre ++ [sl]) m =
      .error (.badResp "reference" 6 (m.raw (m.len - 2 * sl - 1))) := by
  induction pre with
  | nil =>
      obtain ⟨ws, hws, hpop⟩ := popRegs_any sl m (by omega)
      simp only [List.nil_append, popRecords, bind, Except.bind, hpop]
      rw [popByte_ok ⟨m.raw, m.len - 2 * sl⟩ (by simp; omega)]
      dsimp only
      rw [popByte_ok ⟨m.raw, m.len - 2 * sl - 1⟩ (by simp; omega)]
      dsimp only
      simp only [check_value, if_pos href, Except.bind]
  | cons s t ih =>
      simp only [List.cons_append, popRecords, bind, Except.bind,
        List.append_eq]
      rw [ih]

/-- C6: the ReadFileRecordResp constructor computes the expected frame
length 5 plus the sum over records of (2 + 2 * record_len); decode, after
validate, pops each record's data, reference type and field length in
reverse record order, checking reference = 0x06 and field length
= 1 + 2 * record_len (a mismatching reference type in the last record,
which is processed first, raises the response-mismatch error), then pops
data_len, function and address, checks them, and checks that the buffer
is fully consumed, so a well-formed frame decodes to exactly its record
data. -/
theorem readFileRecordResp_decode_spec :
    (∀ sizes : List Nat, readFileRecordRespInitLen sizes =
        5 + (sizes.map (fun s => 2 + 2 * s)).sum) ∧
    (∀ (a : Nat) (datas : List (List Nat)),
      a < 256 → (∀ d ∈ datas, ∀ w ∈ d, w < 65536) →
      (recordChunks datas).length ≤ 255 →
      readFileRecordRespDecode a (datas.map List.length)
        (readFileRecordFrame a datas) = .ok datas) ∧
    (∀ (a sl : Nat) (pre frame : List Nat),
      (validate (Msg.ofBytes frame)
        (readFileRecordRespInitLen (pre ++ [sl]))).isOk = true →
      frame.getD (2 + ((pre ++ [sl]).map (fun s => 2 + 2 * s)).sum
        - 2 * sl) 0 ≠ 6 →
      readFileRecordRespDecode a (pre ++ [sl]) frame =
        .error (.badResp "reference" 6
          (frame.getD (2 + ((pre ++ [sl]).map (fun s => 2 + 2 * s)).sum
            - 2 * sl) 0))) := by
  refine ⟨readFileRecordRespInitLen_eq, ?_, ?_⟩
  · intro a datas ha hw hS
    have hbody : readFileRecordFrame a datas =
        mkFrame (a :: 0x14 :: (recordChunks datas).length ::
          recordChunks datas) := rfl
    obtain ⟨hval, hbytes⟩ := validate_mkFrame
      (a :: 0x14 :: (recordChunks datas).length :: recordChunks datas)
    have hblen : (a :: 0x14 :: (recordChunks datas).length ::
        recordChunks datas).length = 3 + (recordChunks datas).length := by
      simp only [List.length_cons]
      omega
    have hinit : readFileRecordRespInitLen (datas.map List.length) =
        (a :: 0x14 :: (recordChunks datas).length ::
          recordChunks datas).length + 2 := by
      rw [readFileRecordRespInitLen_eq, List.map_map, hblen]
      simp only [Function.comp_def]
      rw [← recordChunks_length]
      omega
    unfold readFileRecordRespDecode
    rw [hbody, hinit]
    simp only [bind, Except.bind, hval]
    have hmb : Msg.bytes ⟨(Msg.ofBytes (mkFrame (a :: 0x14 ::
        (recordChunks datas).length :: recordChunks datas))).raw,
        (a :: 0x14 :: (recordChunks datas).length ::
          recordChunks datas).length⟩ =
        [a, 0x14, (recordChunks datas).length] ++ recordChunks datas :=
      hbytes
    obtain ⟨hpoprec, hbytes2⟩ := popRecords_spec datas _ _ hw hmb
    rw [show (a :: 0x14 :: (recordChunks datas).length ::
        recordChunks datas).length - (recordChunks datas).length = 3 by
      rw [hblen]; omega] at hpoprec hbytes2
    simp only [hpoprec]
    obtain ⟨hp1, hb1⟩ := popByte_spec
      ⟨(Msg.ofBytes (mkFrame (a :: 0x14 :: (recordChunks datas).length ::
        recordChunks datas))).raw, 3⟩ [a, 0x14]
      ((recordChunks datas).length) hbytes2
    rw [hp1]
    dsimp only
    rw [show ((3 : Nat) - 1) = 2 by omega] at hb1 ⊢
    obtain ⟨hp2, hb2⟩ := popByte_spec
      ⟨(Msg.ofBytes (mkFrame (a :: 0x14 :: (recordChunks datas).length ::
        recordChunks datas))).raw, 2⟩ [a] 0x14 hb1
    rw [hp2]
    dsimp only
    rw [show ((2 : Nat) - 1) = 1 by omega] at hb2 ⊢
    obtain ⟨hp3, hb3⟩ := popByte_spec
      ⟨(Msg.ofBytes (mkFrame (a :: 0x14 :: (recordChunks datas).length ::
        recordChunks datas))).raw, 1⟩ [] a hb2
    rw [hp3]
    dsimp only
    rw [hblen]
    rw [show (3 + (recordChunks datas).length - 3) % 256 =
      (recordChunks datas).length by omega]
    simp [check_value, pure, Except.pure]
  · intro a sl pre frame hv href
    obtain ⟨hfl, hval⟩ := validate_isOk _ _ hv
    have hI := readFileRecordRespInitLen_eq (pre ++ [sl])
    have hmem : 2 + 2 * sl ≤
        ((pre ++ [sl]).map (fun s => 2 + 2 * s)).sum := by
      apply List.single_le_sum (fun x _ => Nat.zero_le x)
      exact List.mem_map_of_mem _ (List.mem_append_right pre
        (List.mem_singleton_self sl))
    unfold readFileRecordRespDecode
    simp only [bind, Except.bind, hval]
    rw [hI]
    have herr := popRecords_lastRef pre sl
      ⟨(Msg.ofBytes frame).raw,
        5 + ((pre ++ [sl]).map (fun s => 2 + 2 * s)).sum - 2⟩
      (by dsimp only; omega)
      (by
        dsimp only
        rw [show 5 + ((pre ++ [sl]).map (fun s => 2 + 2 * s)).sum - 2
          - 2 * sl - 1 =
          2 + ((pre ++ [sl]).map (fun s => 2 + 2 * s)).sum - 2 * sl by
            omega]
        exact href)
    rw [show (⟨(Msg.ofBytes frame).raw,
        5 + ((pre ++ [sl]).map (fun s => 2 + 2 * s)).sum - 2⟩ :
          Msg).len - 2 * sl - 1 =
        2 + ((pre ++ [sl]).map (fun s => 2 + 2 * s)).sum - 2 * sl from by
      dsimp only; omega] at herr
    simp only [herr]
    rfl

/-- Witness for C6 at concrete record lists: the length formula at sizes
[1, 2], a successful decode of a well-formed two-record frame, and the
reference-type rejection on a frame whose last-record reference byte is
9. -/
theorem readFileRecordResp_decode_spec_witness :
    readFileRecordRespInitLen [1, 2] =
      5 + ([1, 2].map (fun s => 2 + 2 * s)).sum ∧
    readFileRecordRespDecode 5 ([[4660], [7, 8]].map List.length)
      (readFileRecordFrame 5 [[4660], [7, 8]]) = .ok [[4660], [7, 8]] ∧
    readFileRecordRespDecode 1 ([] ++ [1])
        (mkFrame [5, 0x14, 4, 3, 9, 18, 52]) =
      .error (.badResp "reference" 6
        ((mkFrame [5, 0x14, 4, 3, 9, 18, 52]).getD
          (2 + (([] ++ [1]).map (fun s => 2 + 2 * s)).sum - 2 * 1) 0)) := by
  have h := readFileRecordResp_decode_spec
  exact ⟨h.1 [1, 2],
    h.2.1 5 [[4660], [7, 8]] (by decide) (by decide) (by decide),
    h.2.2 1 1 [] (mkFrame [5, 0x14, 4, 3, 9, 18, 52]) (by decide)
      (by decide)⟩

end Rackmon
